import Mathlib

/-!
Verification development for the session registry and live-telemetry relay of
`webEvalAgent/src/browser_stream.py`.

The server keeps three module-level Python dicts keyed by agent id
(`latest_screenshots`, `last_update_time`, `active_instances`) and exposes
four operations on them:

* `update_screenshot` (POST /update_screenshot) — upsert all three maps;
* `get_screenshots` (GET /get_screenshots) — evict entries older than 30
  seconds, then return the screenshot map and the last-update map;
* `cleanup_browsers` (POST /cleanup) — kill browser processes, then clear all
  three maps, with a try/except wrapping both steps;
* `cleanup_stale_instances` — an endless background loop that every 30 seconds
  evicts entries older than 60 seconds, with a try/except around the sweep
  body so a failing iteration is logged and skipped.

Python dicts are modelled as ordered association lists with string keys,
timestamps (`time.time()` floats) as exact rationals, and the registry as a
structure holding the three dicts.  Logging calls are side effects outside
the registry state and are not modelled.
-/

namespace BrowserStream

/-- Timestamps: `time.time()` epoch seconds, modelled as exact rationals. -/
abbrev Time := ℚ

/-- A Python `dict` with string keys: an ordered association list.  Every
dict the server actually builds has pairwise-distinct keys. -/
abbrev Dict (V : Type) := List (String × V)

/-- `d[k]` lookup, `None` when the key is absent. -/
def dget {V : Type} (d : Dict V) (k : String) : Option V :=
  match d with
  | [] => none
  | (k', v) :: rest => if k' = k then some v else dget rest k

/-- `d[k] = v`: overwrite the existing entry in place, else append. -/
def dset {V : Type} (d : Dict V) (k : String) (v : V) : Dict V :=
  match d with
  | [] => [(k, v)]
  | (k', v') :: rest => if k' = k then (k, v) :: rest else (k', v') :: dset rest k v

/-- `del d[k]`, identity when the key is absent — matching the guarded
`if k in d: del d[k]` pattern the server uses everywhere it deletes. -/
def ddel {V : Type} (d : Dict V) (k : String) : Dict V :=
  match d with
  | [] => []
  | (k', v') :: rest => if k' = k then ddel rest k else (k', v') :: ddel rest k

/-- `k in d`. -/
def dmem {V : Type} (d : Dict V) (k : String) : Bool :=
  (dget d k).isSome

/-- The keys of `d` are pairwise distinct (true of every Python dict). -/
def NodupKeys {V : Type} (d : Dict V) : Prop :=
  (d.map Prod.fst).Nodup

/-- The three module-level dicts of `browser_stream.py` (lines 22-24). -/
structure RegState where
  latest_screenshots : Dict String
  last_update_time : Dict Time
  active_instances : Dict Bool
deriving DecidableEq

/-- The state at module load: all three dicts empty. -/
def initState : RegState := ⟨[], [], []⟩

/-- Request body of POST /update_screenshot (pydantic model, lines 26-28).
Both fields are annotated `str`; pydantic checks presence and type only, so
any string — the empty string included — is accepted. -/
structure ScreenshotUpdate where
  agent_id : String
  screenshot : String
deriving DecidableEq

/-- A raw JSON body for POST /update_screenshot: each field either present
as a string or missing.  Validation happens before the handler runs. -/
structure RawUpdate where
  agent_id : Option String
  screenshot : Option String
deriving DecidableEq

/-- Pydantic validation of the request body against `ScreenshotUpdate`:
succeeds exactly when both declared fields are present (as strings); there is
no further constraint, in particular no non-emptiness check on `agent_id`. -/
def parseScreenshotUpdate (r : RawUpdate) : Except String ScreenshotUpdate :=
  match r.agent_id, r.screenshot with
  | some a, some s => .ok ⟨a, s⟩
  | none, _ => .error "field required: agent_id"
  | some _, none => .error "field required: screenshot"

/-- JSON body returned by the two POST endpoints. -/
structure StatusResponse where
  status : String
  message : String
deriving DecidableEq

/-- Handler of POST /update_screenshot (lines 30-37): write the screenshot,
the current time and the active flag into the three dicts, return success. -/
def update_screenshot (s : RegState) (u : ScreenshotUpdate) (now : Time) :
    RegState × StatusResponse :=
  (⟨dset s.latest_screenshots u.agent_id u.screenshot,
    dset s.last_update_time u.agent_id now,
    dset s.active_instances u.agent_id true⟩,
   ⟨"success", ""⟩)

/-- The full request path of POST /update_screenshot: pydantic validation,
then the handler.  A validation error is returned before the handler runs,
so the registry is untouched. -/
def handle_update (s : RegState) (raw : RawUpdate) (now : Time) :
    RegState × Except String StatusResponse :=
  match parseScreenshotUpdate raw with
  | .error e => (s, .error e)
  | .ok u =>
      let r := update_screenshot s u now
      (r.1, .ok r.2)

/-- The stale-agent list both sweeps build (lines 44-48 and 374-378): the
agent ids of the entries of `last_update_time` with `now - last_time >
threshold`. -/
def staleList (lastupd : Dict Time) (now threshold : Time) : List String :=
  (lastupd.filter (fun p => now - p.2 > threshold)).map Prod.fst

/-- Delete one agent from all three dicts, each deletion guarded by a
membership test in the source (lines 51-58 and 381-388); since `ddel` is the
identity on an absent key, the guards are absorbed. -/
def removeAgent (s : RegState) (a : String) : RegState :=
  ⟨ddel s.latest_screenshots a, ddel s.last_update_time a, ddel s.active_instances a⟩

/-- The removal loop `for agent_id in stale_agents: ...` of both sweeps. -/
def removeAgents (s : RegState) (agents : List String) : RegState :=
  agents.foldl removeAgent s

/-- The body the GET /get_screenshots response is built from. -/
structure Snapshot where
  screenshots : Dict String
  lastUpdate : Dict Time
deriving DecidableEq

/-- Handler of GET /get_screenshots (lines 39-63): evict every agent whose
last update is more than 30 seconds old, then return the screenshot dict and
the last-update dict as they stand after the eviction. -/
def get_screenshots (s : RegState) (now : Time) : RegState × Snapshot :=
  let s' := removeAgents s (staleList s.last_update_time now 30)
  (s', ⟨s'.latest_screenshots, s'.last_update_time⟩)

/-- Handler of POST /cleanup (lines 65-84).  The whole body sits in one
try/except: first the platform-specific process-kill `subprocess.run` call,
then the three `clear()` calls, then the success response.  `killRaises`
models whether the kill step raises an exception (e.g. the kill command is
missing; a non-zero exit status does not raise because `check` is not set).
When it raises, control jumps to the except handler, which returns an error
response — the `clear()` calls never run and the registry is left as it was.
When it does not raise, all three dicts are cleared and success is
returned. -/
def cleanup_browsers (s : RegState) (killRaises : Bool) (errMsg : String) :
    RegState × StatusResponse :=
  if killRaises then
    (s, ⟨"error", errMsg⟩)
  else
    (⟨[], [], []⟩, ⟨"success", "All browser processes cleaned up"⟩)

/-- One evicting pass of the background sweeper `cleanup_stale_instances`
(lines 370-392 body, with the 60-second threshold of line 377). -/
def sweepOnce (s : RegState) (now : Time) : RegState :=
  removeAgents s (staleList s.last_update_time now 60)

/-- One iteration of the sweeper's `while True` loop: the sweep body runs in
a try/except, so when an exception interrupts the iteration (`raised`) the
evictions of that cycle are skipped and the state is left unchanged;
either way the loop then sleeps 30 seconds and continues. -/
def sweeperStep (acc : RegState × ℕ) (ev : Time × Bool) : RegState × ℕ :=
  ((if ev.2 then acc.1 else sweepOnce acc.1 ev.1), acc.2 + 30)

/-- A finite prefix of the sweeper's endless loop: one `(wake time, raised)`
event per iteration, threading the registry state and accumulating the
seconds slept (30 per iteration, taken outside the try/except). -/
def sweeperRun (s : RegState) (events : List (Time × Bool)) : RegState × ℕ :=
  events.foldl sweeperStep (s, 0)

/-- One atomic operation on the shared registry, as issued by the request
handlers and the background task. -/
inductive Op where
  | ingest (aid scr : String) (t : Time)
  | snapshot (now : Time)
  | sweep (now : Time)
  | sweepFail
  | cleanup (killRaises : Bool) (errMsg : String)
deriving DecidableEq

/-- The registry state after one operation. -/
def applyOp (s : RegState) : Op → RegState
  | .ingest aid scr t => (update_screenshot s ⟨aid, scr⟩ t).1
  | .snapshot now => (get_screenshots s now).1
  | .sweep now => sweepOnce s now
  | .sweepFail => s
  | .cleanup kr msg => (cleanup_browsers s kr msg).1

/-- The registry state after a sequence of operations. -/
def runOps (s : RegState) (ops : List Op) : RegState :=
  ops.foldl applyOp s

/-- States the server can actually be in: reachable from the empty registry
by some sequence of operations. -/
def Reachable (s : RegState) : Prop :=
  ∃ ops : List Op, runOps initState ops = s

/-- The invariant the code maintains between the three dicts: an agent id is
a key of one iff it is a key of all three. -/
def sameKeys (s : RegState) : Prop :=
  ∀ a : String,
    dmem s.latest_screenshots a = dmem s.last_update_time a
    ∧ dmem s.active_instances a = dmem s.last_update_time a

/-- The most recent ingestion for agent `a` in a sequence of operations:
the screenshot and timestamp of the last `ingest` for `a`, if any. -/
def lastIngest (ops : List Op) (a : String) : Option (String × Time) :=
  ops.foldl
    (fun acc op =>
      match op with
      | .ingest aid scr t => if aid = a then some (scr, t) else acc
      | _ => acc)
    none

theorem dget_dset_self {V : Type} (d : Dict V) (k : String) (v : V) :
    dget (dset d k v) k = some v := by
  induction d with
  | nil => simp [dget, dset]
  | cons hd tl ih =>
    obtain ⟨k', v'⟩ := hd
    by_cases h : k' = k
    · simp [dget, dset, h]
    · simp [dget, dset, h, ih]

theorem dget_dset_ne {V : Type} (d : Dict V) (k a : String) (v : V) (h : k ≠ a) :
    dget (dset d k v) a = dget d a := by
  induction d with
  | nil => simp [dget, dset, h]
  | cons hd tl ih =>
    obtain ⟨k', v'⟩ := hd
    by_cases hk : k' = k
    · subst hk
      simp [dget, dset, h]
    · by_cases ha : k' = a
      · simp [dget, dset, hk, ha, Ne.symm h]
      · simp [dget, dset, hk, ha, ih]

theorem dget_ddel_self {V : Type} (d : Dict V) (k : String) :
    dget (ddel d k) k = none := by
  induction d with
  | nil => simp [dget, ddel]
  | cons hd tl ih =>
    obtain ⟨k', v'⟩ := hd
    by_cases h : k' = k
    · simp [ddel, h, ih]
    · simp [dget, ddel, h, ih]

theorem dget_ddel_ne {V : Type} (d : Dict V) (k a : String) (h : k ≠ a) :
    dget (ddel d k) a = dget d a := by
  induction d with
  | nil => simp [ddel]
  | cons hd tl ih =>
    obtain ⟨k', v'⟩ := hd
    by_cases hk : k' = k
    · subst hk
      simp [dget, ddel, h, ih]
    · by_cases ha : k' = a
      · simp [dget, ddel, hk, ha, Ne.symm h]
      · simp [dget, ddel, hk, ha, ih]

theorem dget_mem {V : Type} {d : Dict V} {a : String} {v : V}
    (h : dget d a = some v) : (a, v) ∈ d := by
  induction d with
  | nil => simp [dget] at h
  | cons hd tl ih =>
    obtain ⟨k', v'⟩ := hd
    by_cases hk : k' = a
    · subst hk
      simp [dget] at h
      subst h
      exact List.mem_cons_self _ _
    · simp [dget, hk] at h
      exact List.mem_cons_of_mem _ (ih h)

theorem mem_dget {V : Type} {d : Dict V} {a : String} {v : V}
    (hd : NodupKeys d) (h : (a, v) ∈ d) : dget d a = some v := by
  induction d with
  | nil => simp at h
  | cons hd' tl ih =>
    obtain ⟨k', v'⟩ := hd'
    unfold NodupKeys at hd
    simp only [List.map_cons, List.nodup_cons] at hd
    rcases List.mem_cons.mp h with h1 | h1
    · obtain ⟨rfl, rfl⟩ := Prod.mk.injEq .. ▸ h1
      simp [dget]
    · have hne : k' ≠ a := by
        intro he
        subst he
        exact hd.1 (List.mem_map.mpr ⟨(k', v), h1, rfl⟩)
      simp only [dget, hne, if_false]
      exact ih hd.2 h1


theorem removeAgent_get (s : RegState) (x a : String) :
    dget (removeAgent s x).latest_screenshots a
      = (if a = x then none else dget s.latest_screenshots a)
    ∧ dget (removeAgent s x).last_update_time a
      = (if a = x then none else dget s.last_update_time a)
    ∧ dget (removeAgent s x).active_instances a
      = (if a = x then none else dget s.active_instances a) := by
  by_cases hx : a = x
  · subst hx
    refine ⟨?_, ?_, ?_⟩ <;> simp [removeAgent, dget_ddel_self]
  · refine ⟨?_, ?_, ?_⟩ <;>
      simp [removeAgent, hx, dget_ddel_ne _ x a (fun he => hx he.symm)]

theorem removeAgents_get (s : RegState) (L : List String) (a : String) :
    dget (removeAgents s L).latest_screenshots a
      = (if a ∈ L then none else dget s.latest_screenshots a)
    ∧ dget (removeAgents s L).last_update_time a
      = (if a ∈ L then none else dget s.last_update_time a)
    ∧ dget (removeAgents s L).active_instances a
      = (if a ∈ L then none else dget s.active_instances a) := by
  induction L generalizing s with
  | nil => simp [removeAgents]
  | cons x L ih =>
    have hstep : removeAgents s (x :: L) = removeAgents (removeAgent s x) L := rfl
    obtain ⟨h1, h2, h3⟩ := ih (removeAgent s x)
    obtain ⟨e1, e2, e3⟩ := removeAgent_get s x a
    rw [hstep]
    refine ⟨?_, ?_, ?_⟩
    · rw [h1, e1]
      by_cases hx : a = x <;> by_cases hL : a ∈ L <;> simp [hx, hL]
    · rw [h2, e2]
      by_cases hx : a = x <;> by_cases hL : a ∈ L <;> simp [hx, hL]
    · rw [h3, e3]
      by_cases hx : a = x <;> by_cases hL : a ∈ L <;> simp [hx, hL]

theorem mem_staleList {l : Dict Time} {now th : Time} {a : String} :
    a ∈ staleList l now th ↔ ∃ t, (a, t) ∈ l ∧ now - t > th := by
  unfold staleList
  constructor
  · intro h
    obtain ⟨⟨a', t⟩, hmem, hfst⟩ := List.mem_map.mp h
    obtain ⟨hl, hp⟩ := List.mem_filter.mp hmem
    subst hfst
    exact ⟨t, hl, by simpa using hp⟩
  · rintro ⟨t, hl, hgt⟩
    exact List.mem_map.mpr ⟨(a, t), List.mem_filter.mpr ⟨hl, by simpa using hgt⟩, rfl⟩

theorem mem_staleList_nodup {l : Dict Time} {now th : Time} {a : String}
    (hnd : NodupKeys l) :
    a ∈ staleList l now th ↔ ∃ t, dget l a = some t ∧ now - t > th := by
  rw [mem_staleList]
  constructor
  · rintro ⟨t, hl, hgt⟩
    exact ⟨t, mem_dget hnd hl, hgt⟩
  · rintro ⟨t, hl, hgt⟩
    exact ⟨t, dget_mem hl, hgt⟩

theorem sameKeys_init : sameKeys initState := by
  intro a
  simp [initState, dmem, dget]

theorem sameKeys_applyOp {s : RegState} (hs : sameKeys s) (op : Op) :
    sameKeys (applyOp s op) := by
  cases op with
  | ingest aid scr t =>
    intro a
    by_cases h : aid = a
    · subst h
      simp [applyOp, update_screenshot, dmem, dget_dset_self]
    · obtain ⟨h1, h2⟩ := hs a
      simp only [applyOp, update_screenshot, dmem, dget_dset_ne _ _ _ _ h]
      exact ⟨h1, h2⟩
  | snapshot now =>
    intro a
    obtain ⟨g1, g2, g3⟩ :=
      removeAgents_get s (staleList s.last_update_time now 30) a
    obtain ⟨h1, h2⟩ := hs a
    simp only [applyOp, get_screenshots, dmem, g1, g2, g3]
    by_cases hm : a ∈ staleList s.last_update_time now 30 <;>
      simp_all [dmem]
  | sweep now =>
    intro a
    obtain ⟨g1, g2, g3⟩ :=
      removeAgents_get s (staleList s.last_update_time now 60) a
    obtain ⟨h1, h2⟩ := hs a
    simp only [applyOp, sweepOnce, dmem, g1, g2, g3]
    by_cases hm : a ∈ staleList s.last_update_time now 60 <;>
      simp_all [dmem]
  | sweepFail => exact hs
  | cleanup kr msg =>
    intro a
    cases kr with
    | false => simp [applyOp, cleanup_browsers, dmem, dget]
    | true => exact hs a

theorem sameKeys_runOps {s : RegState} (hs : sameKeys s) (ops : List Op) :
    sameKeys (runOps s ops) := by
  induction ops generalizing s with
  | nil => exact hs
  | cons op ops ih => exact ih (sameKeys_applyOp hs op)

theorem reachable_sameKeys {s : RegState} (hs : Reachable s) : sameKeys s := by
  obtain ⟨ops, hops⟩ := hs
  exact hops ▸ sameKeys_runOps sameKeys_init ops

theorem runOps_append (s : RegState) (ops : List Op) (op : Op) :
    runOps s (ops ++ [op]) = applyOp (runOps s ops) op := by
  simp [runOps, List.foldl_append]

theorem reachable_applyOp {s : RegState} (h : Reachable s) (op : Op) :
    Reachable (applyOp s op) := by
  obtain ⟨ops, hops⟩ := h
  exact ⟨ops ++ [op], by rw [runOps_append, hops]⟩

theorem lastIngest_append_ingest (ops : List Op) (aid scr : String) (t : Time)
    (a : String) :
    lastIngest (ops ++ [.ingest aid scr t]) a
      = if aid = a then some (scr, t) else lastIngest ops a := by
  simp [lastIngest, List.foldl_append]

theorem lastIngest_append_other (ops : List Op) (op : Op) (a : String)
    (h : ∀ aid scr t, op ≠ .ingest aid scr t) :
    lastIngest (ops ++ [op]) a = lastIngest ops a := by
  cases op with
  | ingest aid scr t => exact absurd rfl (h aid scr t)
  | snapshot now => simp [lastIngest, List.foldl_append]
  | sweep now => simp [lastIngest, List.foldl_append]
  | sweepFail => simp [lastIngest, List.foldl_append]
  | cleanup kr msg => simp [lastIngest, List.foldl_append]

/-- Whenever an agent has a screenshot in the registry reached by a sequence
of operations, that screenshot and the stored timestamp are exactly those of
the agent's most recent ingestion in the sequence. -/
theorem runOps_lastIngest (ops : List Op) (a v : String)
    (h : dget (runOps initState ops).latest_screenshots a = some v) :
    ∃ t : Time, lastIngest ops a = some (v, t)
      ∧ dget (runOps initState ops).last_update_time a = some t := by
  induction ops using List.reverseRecOn with
  | nil => simp [runOps, initState, dget] at h
  | append_singleton ops op ih =>
    rw [runOps_append] at h ⊢
    cases op with
    | ingest aid scr t =>
      by_cases ha : aid = a
      · subst ha
        simp only [applyOp, update_screenshot, dget_dset_self] at h
        obtain rfl : scr = v := Option.some.injEq .. ▸ h
        refine ⟨t, ?_, ?_⟩
        · rw [lastIngest_append_ingest]
          simp
        · simpa [applyOp, update_screenshot] using dget_dset_self _ aid t
      · simp only [applyOp, update_screenshot,
          dget_dset_ne _ _ _ _ ha] at h
        obtain ⟨t', hli, hlu⟩ := ih h
        refine ⟨t', ?_, ?_⟩
        · rw [lastIngest_append_ingest]
          simp [ha, hli]
        · simpa [applyOp, update_screenshot, dget_dset_ne _ _ _ _ ha] using hlu
    | snapshot now =>
      obtain ⟨g1, g2, g3⟩ :=
        removeAgents_get (runOps initState ops)
          (staleList (runOps initState ops).last_update_time now 30) a
      simp only [applyOp, get_screenshots] at h ⊢
      rw [g1] at h
      by_cases hm : a ∈ staleList (runOps initState ops).last_update_time now 30
      · simp [hm] at h
      · rw [if_neg hm] at h
        obtain ⟨t', hli, hlu⟩ := ih h
        refine ⟨t', ?_, ?_⟩
        · rw [lastIngest_append_other _ _ _ (by intro aid scr t hc; cases hc)]
          exact hli
        · rw [g2, if_neg hm]
          exact hlu
    | sweep now =>
      obtain ⟨g1, g2, g3⟩ :=
        removeAgents_get (runOps initState ops)
          (staleList (runOps initState ops).last_update_time now 60) a
      simp only [applyOp, sweepOnce] at h ⊢
      rw [g1] at h
      by_cases hm : a ∈ staleList (runOps initState ops).last_update_time now 60
      · simp [hm] at h
      · rw [if_neg hm] at h
        obtain ⟨t', hli, hlu⟩ := ih h
        refine ⟨t', ?_, ?_⟩
        · rw [lastIngest_append_other _ _ _ (by intro aid scr t hc; cases hc)]
          exact hli
        · rw [g2, if_neg hm]
          exact hlu
    | sweepFail =>
      obtain ⟨t', hli, hlu⟩ := ih h
      refine ⟨t', ?_, hlu⟩
      rw [lastIngest_append_other _ _ _ (by intro aid scr t hc; cases hc)]
      exact hli
    | cleanup kr msg =>
      cases kr with
      | true =>
        simp only [applyOp, cleanup_browsers, if_true] at h ⊢
        obtain ⟨t', hli, hlu⟩ := ih h
        refine ⟨t', ?_, hlu⟩
        rw [lastIngest_append_other _ _ _ (by intro aid scr t hc; cases hc)]
        exact hli
      | false => simp [applyOp, cleanup_browsers, dget] at h

theorem sweeperRun_fst_counter (evs : List (Time × Bool)) (s : RegState)
    (n m : ℕ) :
    (List.foldl sweeperStep (s, n) evs).1
      = (List.foldl sweeperStep (s, m) evs).1 := by
  induction evs generalizing s n m with
  | nil => rfl
  | cons e evs ih =>
    simp only [List.foldl_cons, sweeperStep]
    exact ih _ _ _

theorem sweeperRun_snd (evs : List (Time × Bool)) (s : RegState) (n : ℕ) :
    (List.foldl sweeperStep (s, n) evs).2 = n + 30 * evs.length := by
  induction evs generalizing s n with
  | nil => simp
  | cons e evs ih =>
    simp only [List.foldl_cons, sweeperStep, List.length_cons]
    rw [ih]
    ring

/-- C1, counterexample: the claim says the registry is empty after every
cleanup call even when the OS process-termination step raises.  It is not:
with one fresh agent in the registry and a raising kill step, the except
handler returns an error response and the registry still holds the agent —
the `clear()` calls sit after the kill call inside the same try block, so
they are skipped. -/
theorem cleanup_raise_skips_clear_cex :
    (cleanup_browsers (update_screenshot initState ⟨"A", "img"⟩ 0).1
        true "pkill not found").2.status = "error"
    ∧ dget (cleanup_browsers (update_screenshot initState ⟨"A", "img"⟩ 0).1
        true "pkill not found").1.latest_screenshots "A" = some "img"
    ∧ (cleanup_browsers (update_screenshot initState ⟨"A", "img"⟩ 0).1
        true "pkill not found").1 ≠ initState := by
  refine ⟨rfl, rfl, ?_⟩
  intro hcontra
  have : dget (initState).latest_screenshots "A" = some "img" := by
    rw [← hcontra]
    rfl
  simp [initState, dget] at this

/-- C1, amended: every cleanup call returns a status response; when the OS
process-termination step does not raise, the registry is cleared and success
is reported; when it raises, the except handler reports an error and the
registry is left exactly as it was — the clearing step is skipped. -/
theorem cleanup_browsers_spec (s : RegState) (kr : Bool) (msg : String) :
    ((cleanup_browsers s kr msg).2.status = "success"
      ∨ (cleanup_browsers s kr msg).2.status = "error")
    ∧ (kr = false →
        (cleanup_browsers s kr msg).1 = initState
        ∧ (cleanup_browsers s kr msg).2.status = "success")
    ∧ (kr = true →
        (cleanup_browsers s kr msg).1 = s
        ∧ (cleanup_browsers s kr msg).2 = ⟨"error", msg⟩) := by
  cases kr <;> simp [cleanup_browsers, initState]

/-- C1, witness: the amended theorem applied both to a non-raising cleanup
from a one-agent registry and to a raising one. -/
theorem cleanup_browsers_spec_witness :
    (cleanup_browsers (update_screenshot initState ⟨"A", "img"⟩ 0).1
        false "").1 = initState
    ∧ (cleanup_browsers (update_screenshot initState ⟨"A", "img"⟩ 0).1
        true "boom").1 = (update_screenshot initState ⟨"A", "img"⟩ 0).1 :=
  ⟨((cleanup_browsers_spec (update_screenshot initState ⟨"A", "img"⟩ 0).1
      false "").2.1 rfl).1,
   ((cleanup_browsers_spec (update_screenshot initState ⟨"A", "img"⟩ 0).1
      true "boom").2.2 rfl).1⟩

/-- C2, counterexample: the claim says an empty `agent_id` is rejected with
a validation error and no mutation.  It is not: the pydantic model only
declares `agent_id: str`, so the empty string passes validation, the handler
returns success, and the registry gains a record under the empty key. -/
theorem empty_agent_id_accepted_cex :
    (handle_update initState ⟨some "", some "img"⟩ 0).2
      = .ok ⟨"success", ""⟩
    ∧ dget (handle_update initState ⟨some "", some "img"⟩ 0).1.latest_screenshots ""
      = some "img"
    ∧ (handle_update initState ⟨some "", some "img"⟩ 0).1 ≠ initState := by
  refine ⟨rfl, rfl, ?_⟩
  intro hcontra
  have : dget (initState).latest_screenshots "" = some "img" := by
    rw [← hcontra]
    rfl
  simp [initState, dget] at this

/-- C2, amended: a request whose body has both `agent_id` and `screenshot`
present as strings — the empty string included — passes validation and
performs the upsert with a success response; a request missing either field
fails validation before the handler runs and mutates nothing. -/
theorem handle_update_spec (s : RegState) (raw : RawUpdate) (now : Time) :
    (raw.agent_id = none ∨ raw.screenshot = none →
      (handle_update s raw now).1 = s
      ∧ ∃ e : String, (handle_update s raw now).2 = .error e)
    ∧ (∀ a sc : String, raw.agent_id = some a → raw.screenshot = some sc →
        handle_update s raw now
          = ((update_screenshot s ⟨a, sc⟩ now).1,
             .ok (update_screenshot s ⟨a, sc⟩ now).2)) := by
  obtain ⟨oa, os⟩ := raw
  constructor
  · rintro (rfl | rfl)
    · simp [handle_update, parseScreenshotUpdate]
    · cases oa <;> simp [handle_update, parseScreenshotUpdate]
  · rintro a sc rfl rfl
    simp [handle_update, parseScreenshotUpdate]

/-- C2, witness: the amended theorem applied to a body missing `agent_id`
(no mutation, an error) and to a complete body (the upsert runs). -/
theorem handle_update_spec_witness :
    (handle_update initState ⟨none, some "img"⟩ 0).1 = initState
    ∧ handle_update initState ⟨some "A", some "img"⟩ 0
        = ((update_screenshot initState ⟨"A", "img"⟩ 0).1,
           .ok (update_screenshot initState ⟨"A", "img"⟩ 0).2) :=
  ⟨((handle_update_spec initState ⟨none, some "img"⟩ 0).1 (Or.inl rfl)).1,
   (handle_update_spec initState ⟨some "A", some "img"⟩ 0).2 "A" "img" rfl rfl⟩

/-- C3: a well-formed ingestion maps the agent to exactly the sent
screenshot with timestamp `now` — creating or overwriting the record — marks
it active, reports success, and leaves every other agent's record in all
three dicts unchanged. -/
theorem update_screenshot_upsert (s : RegState) (aid scr : String)
    (now : Time) :
    dget (update_screenshot s ⟨aid, scr⟩ now).1.latest_screenshots aid
      = some scr
    ∧ dget (update_screenshot s ⟨aid, scr⟩ now).1.last_update_time aid
      = some now
    ∧ dget (update_screenshot s ⟨aid, scr⟩ now).1.active_instances aid
      = some true
    ∧ (update_screenshot s ⟨aid, scr⟩ now).2.status = "success"
    ∧ ∀ b : String, b ≠ aid →
        dget (update_screenshot s ⟨aid, scr⟩ now).1.latest_screenshots b
          = dget s.latest_screenshots b
        ∧ dget (update_screenshot s ⟨aid, scr⟩ now).1.last_update_time b
          = dget s.last_update_time b
        ∧ dget (update_screenshot s ⟨aid, scr⟩ now).1.active_instances b
          = dget s.active_instances b := by
  refine ⟨dget_dset_self .., dget_dset_self .., dget_dset_self .., rfl,
    fun b hb => ⟨?_, ?_, ?_⟩⟩ <;>
    exact dget_dset_ne _ _ _ _ (fun he => hb he.symm)

/-- C3, witness: ingesting agent `A` over a registry already holding agent
`B` stores `A`'s record and leaves `B`'s screenshot untouched. -/
theorem update_screenshot_upsert_witness :
    dget (update_screenshot ⟨[("B", "old")], [("B", 7)], [("B", true)]⟩
        ⟨"A", "img"⟩ 9).1.latest_screenshots "A" = some "img"
    ∧ dget (update_screenshot ⟨[("B", "old")], [("B", 7)], [("B", true)]⟩
        ⟨"A", "img"⟩ 9).1.latest_screenshots "B" = some "old" := by
  obtain ⟨h1, _, _, _, h5⟩ :=
    update_screenshot_upsert ⟨[("B", "old")], [("B", 7)], [("B", true)]⟩
      "A" "img" 9
  exact ⟨h1, ((h5 "B" (by decide)).1).trans rfl⟩

/-- C8: the cleanup endpoint is idempotent on registry state — after a first
(non-raising) cleanup the registry is empty, and a second cleanup reports
success while the registry is empty both before and after it. -/
theorem cleanup_browsers_idempotent (s : RegState) (m1 m2 : String) :
    (cleanup_browsers s false m1).1 = initState
    ∧ (cleanup_browsers (cleanup_browsers s false m1).1 false m2).2.status
      = "success"
    ∧ (cleanup_browsers (cleanup_browsers s false m1).1 false m2).1
      = initState := by
  simp [cleanup_browsers, initState]

/-- C4: the snapshot endpoint evicts every agent whose last update is more
than 30 seconds old before building its response — such an agent appears in
neither returned mapping, with no background sweep needed — and keeps every
agent at or under the threshold with its stored record intact. -/
theorem get_screenshots_evicts_stale (s : RegState) (now t : Time)
    (a : String) (hnd : NodupKeys s.last_update_time)
    (hget : dget s.last_update_time a = some t) :
    (now - t > 30 →
      dget ((get_screenshots s now).2).screenshots a = none
      ∧ dget ((get_screenshots s now).2).lastUpdate a = none)
    ∧ (¬ now - t > 30 →
      dget ((get_screenshots s now).2).screenshots a
        = dget s.latest_screenshots a
      ∧ dget ((get_screenshots s now).2).lastUpdate a = some t) := by
  obtain ⟨g1, g2, g3⟩ :=
    removeAgents_get s (staleList s.last_update_time now 30) a
  constructor
  · intro hgt
    have hm : a ∈ staleList s.last_update_time now 30 :=
      (mem_staleList_nodup hnd).mpr ⟨t, hget, hgt⟩
    constructor
    · show dget (removeAgents s
        (staleList s.last_update_time now 30)).latest_screenshots a = none
      rw [g1, if_pos hm]
    · show dget (removeAgents s
        (staleList s.last_update_time now 30)).last_update_time a = none
      rw [g2, if_pos hm]
  · intro hle
    have hm : a ∉ staleList s.last_update_time now 30 := by
      intro hmem
      obtain ⟨t', hget', hgt'⟩ := (mem_staleList_nodup hnd).mp hmem
      rw [hget] at hget'
      obtain rfl : t = t' := by
        injection hget'
      exact hle hgt'
    constructor
    · show dget (removeAgents s
        (staleList s.last_update_time now 30)).latest_screenshots a
        = dget s.latest_screenshots a
      rw [g1, if_neg hm]
    · show dget (removeAgents s
        (staleList s.last_update_time now 30)).last_update_time a = some t
      rw [g2, if_neg hm, hget]

/-- C4, witness: an agent ingested at t=0 with no further ingestion is in
the snapshot taken at t=5 with its screenshot, and in neither mapping of the
snapshot taken at t=31. -/
theorem get_screenshots_evicts_stale_witness :
    dget ((get_screenshots (update_screenshot initState ⟨"A", "xyz"⟩ 0).1
        5).2).screenshots "A" = some "xyz"
    ∧ dget ((get_screenshots (update_screenshot initState ⟨"A", "xyz"⟩ 0).1
        31).2).screenshots "A" = none
    ∧ dget ((get_screenshots (update_screenshot initState ⟨"A", "xyz"⟩ 0).1
        31).2).lastUpdate "A" = none := by
  have hnd :
      NodupKeys (update_screenshot initState ⟨"A", "xyz"⟩ 0).1.last_update_time := by
    simp [NodupKeys, update_screenshot, initState, dset]
  have hget :
      dget (update_screenshot initState ⟨"A", "xyz"⟩ 0).1.last_update_time "A"
        = some 0 := rfl
  obtain ⟨hk1, hk2⟩ :=
    (get_screenshots_evicts_stale _ 5 0 "A" hnd hget).2 (by norm_num)
  obtain ⟨he1, he2⟩ :=
    (get_screenshots_evicts_stale _ 31 0 "A" hnd hget).1 (by norm_num)
  exact ⟨hk1.trans rfl, he1, he2⟩

/-- C5: on every reachable registry state, the two mappings the snapshot
endpoint returns have exactly the same key set — no agent appears with a
screenshot but no timestamp or with a timestamp but no screenshot. -/
theorem get_screenshots_same_key_set {s : RegState} (hs : Reachable s)
    (now : Time) (a : String) :
    dmem ((get_screenshots s now).2).screenshots a
      = dmem ((get_screenshots s now).2).lastUpdate a := by
  have h' : sameKeys (applyOp s (.snapshot now)) :=
    reachable_sameKeys (reachable_applyOp hs _)
  exact (h' a).1

/-- C5, witness: the theorem applied to the reachable state holding one
fresh agent. -/
theorem get_screenshots_same_key_set_witness :
    dmem ((get_screenshots (runOps initState [.ingest "A" "xyz" 0])
        5).2).screenshots "A"
      = dmem ((get_screenshots (runOps initState [.ingest "A" "xyz" 0])
        5).2).lastUpdate "A" :=
  get_screenshots_same_key_set ⟨[.ingest "A" "xyz" 0], rfl⟩ 5 "A"

/-- C6: one pass of the background sweeper evicts exactly the records more
than 60 seconds old — removing them from all three dicts — and leaves every
other record unchanged in all three; when every stored record is more than
60 seconds old, one pass leaves no agent in the registry at all. -/
theorem cleanup_stale_instances_spec (s : RegState) (now : Time)
    (hnd : NodupKeys s.last_update_time) (hsk : sameKeys s) :
    (∀ a t, dget s.last_update_time a = some t →
      (now - t > 60 →
        dget (sweepOnce s now).latest_screenshots a = none
        ∧ dget (sweepOnce s now).last_update_time a = none
        ∧ dget (sweepOnce s now).active_instances a = none)
      ∧ (¬ now - t > 60 →
        dget (sweepOnce s now).latest_screenshots a
          = dget s.latest_screenshots a
        ∧ dget (sweepOnce s now).last_update_time a = some t
        ∧ dget (sweepOnce s now).active_instances a
          = dget s.active_instances a))
    ∧ ((∀ a t, dget s.last_update_time a = some t → now - t > 60) →
      ∀ a, dget (sweepOnce s now).latest_screenshots a = none
        ∧ dget (sweepOnce s now).last_update_time a = none
        ∧ dget (sweepOnce s now).active_instances a = none) := by
  constructor
  · intro a t hget
    obtain ⟨g1, g2, g3⟩ :=
      removeAgents_get s (staleList s.last_update_time now 60) a
    constructor
    · intro hgt
      have hm : a ∈ staleList s.last_update_time now 60 :=
        (mem_staleList_nodup hnd).mpr ⟨t, hget, hgt⟩
      refine ⟨?_, ?_, ?_⟩
      · rw [show dget (sweepOnce s now).latest_screenshots a
          = dget (removeAgents s
            (staleList s.last_update_time now 60)).latest_screenshots a
          from rfl, g1, if_pos hm]
      · rw [show dget (sweepOnce s now).last_update_time a
          = dget (removeAgents s
            (staleList s.last_update_time now 60)).last_update_time a
          from rfl, g2, if_pos hm]
      · rw [show dget (sweepOnce s now).active_instances a
          = dget (removeAgents s
            (staleList s.last_update_time now 60)).active_instances a
          from rfl, g3, if_pos hm]
    · intro hle
      have hm : a ∉ staleList s.last_update_time now 60 := by
        intro hmem
        obtain ⟨t', hget', hgt'⟩ := (mem_staleList_nodup hnd).mp hmem
        rw [hget] at hget'
        obtain rfl : t = t' := by
          injection hget'
        exact hle hgt'
      refine ⟨?_, ?_, ?_⟩
      · rw [show dget (sweepOnce s now).latest_screenshots a
          = dget (removeAgents s
            (staleList s.last_update_time now 60)).latest_screenshots a
          from rfl, g1, if_neg hm]
      · rw [show dget (sweepOnce s now).last_update_time a
          = dget (removeAgents s
            (staleList s.last_update_time now 60)).last_update_time a
          from rfl, g2, if_neg hm, hget]
      · rw [show dget (sweepOnce s now).active_instances a
          = dget (removeAgents s
            (staleList s.last_update_time now 60)).active_instances a
          from rfl, g3, if_neg hm]
  · intro hall a
    obtain ⟨g1, g2, g3⟩ :=
      removeAgents_get s (staleList s.last_update_time now 60) a
    cases hdg : dget s.last_update_time a with
    | some t =>
      have hm : a ∈ staleList s.last_update_time now 60 :=
        (mem_staleList_nodup hnd).mpr ⟨t, hdg, hall a t hdg⟩
      exact ⟨by rw [show dget (sweepOnce s now).latest_screenshots a
          = dget (removeAgents s
            (staleList s.last_update_time now 60)).latest_screenshots a
          from rfl, g1, if_pos hm],
        by rw [show dget (sweepOnce s now).last_update_time a
          = dget (removeAgents s
            (staleList s.last_update_time now 60)).last_update_time a
          from rfl, g2, if_pos hm],
        by rw [show dget (sweepOnce s now).active_instances a
          = dget (removeAgents s
            (staleList s.last_update_time now 60)).active_instances a
          from rfl, g3, if_pos hm]⟩
    | none =>
      have hm : a ∉ staleList s.last_update_time now 60 := by
        intro hmem
        obtain ⟨t', hget', _⟩ := (mem_staleList_nodup hnd).mp hmem
        rw [hdg] at hget'
        exact Option.noConfusion hget'
      have hlat : dget s.latest_screenshots a = none := by
        have h1 := (hsk a).1
        rw [dmem, dmem, hdg] at h1
        cases hl : dget s.latest_screenshots a with
        | none => rfl
        | some v =>
          rw [hl] at h1
          simp at h1
      have hact : dget s.active_instances a = none := by
        have h2 := (hsk a).2
        rw [dmem, dmem, hdg] at h2
        cases hl : dget s.active_instances a with
        | none => rfl
        | some v =>
          rw [hl] at h2
          simp at h2
      exact ⟨by rw [show dget (sweepOnce s now).latest_screenshots a
          = dget (removeAgents s
            (staleList s.last_update_time now 60)).latest_screenshots a
          from rfl, g1, if_neg hm, hlat],
        by rw [show dget (sweepOnce s now).last_update_time a
          = dget (removeAgents s
            (staleList s.last_update_time now 60)).last_update_time a
          from rfl, g2, if_neg hm, hdg],
        by rw [show dget (sweepOnce s now).active_instances a
          = dget (removeAgents s
            (staleList s.last_update_time now 60)).active_instances a
          from rfl, g3, if_neg hm, hact]⟩

/-- C6, witness: sweeping at t=100 a registry holding agent `A` last seen
at t=0 and agent `B` last seen at t=50 evicts `A` and keeps `B`'s record
unchanged. -/
theorem cleanup_stale_instances_spec_witness :
    dget (sweepOnce
        (runOps initState [.ingest "A" "a1" 0, .ingest "B" "b1" 50])
        100).latest_screenshots "A" = none
    ∧ dget (sweepOnce
        (runOps initState [.ingest "A" "a1" 0, .ingest "B" "b1" 50])
        100).latest_screenshots "B" = some "b1"
    ∧ dget (sweepOnce
        (runOps initState [.ingest "A" "a1" 0, .ingest "B" "b1" 50])
        100).last_update_time "B" = some 50 := by
  have hnd : NodupKeys
      (runOps initState
        [.ingest "A" "a1" 0, .ingest "B" "b1" 50]).last_update_time := by
    simp [NodupKeys, runOps, applyOp, update_screenshot, initState, dset]
  have hsk : sameKeys
      (runOps initState [.ingest "A" "a1" 0, .ingest "B" "b1" 50]) :=
    reachable_sameKeys ⟨[.ingest "A" "a1" 0, .ingest "B" "b1" 50], rfl⟩
  have h := (cleanup_stale_instances_spec
    (runOps initState [.ingest "A" "a1" 0, .ingest "B" "b1" 50])
    100 hnd hsk).1
  obtain ⟨hA, _, _⟩ := (h "A" 0 rfl).1 (by norm_num)
  obtain ⟨hB1, hB2, _⟩ := (h "B" 50 rfl).2 (by norm_num)
  exact ⟨hA, hB1.trans rfl, hB2⟩

/-- C7: whatever sequence of operations produced the registry, an agent
appearing in a snapshot carries exactly the screenshot and the timestamp of
its most recent ingestion in that sequence — no interleaving pairs a
screenshot with an older timestamp. -/
theorem snapshot_reflects_latest_ingestion (ops : List Op) (now : Time)
    (a v : String) (t : Time)
    (hscr : dget ((get_screenshots (runOps initState ops) now).2).screenshots a
      = some v)
    (hts : dget ((get_screenshots (runOps initState ops) now).2).lastUpdate a
      = some t) :
    lastIngest ops a = some (v, t) := by
  obtain ⟨g1, g2, g3⟩ :=
    removeAgents_get (runOps initState ops)
      (staleList (runOps initState ops).last_update_time now 30) a
  have hscr' : dget (removeAgents (runOps initState ops)
      (staleList (runOps initState ops).last_update_time now 30)).latest_screenshots a
      = some v := hscr
  have hts' : dget (removeAgents (runOps initState ops)
      (staleList (runOps initState ops).last_update_time now 30)).last_update_time a
      = some t := hts
  rw [g1] at hscr'
  rw [g2] at hts'
  by_cases hm : a ∈ staleList (runOps initState ops).last_update_time now 30
  · rw [if_pos hm] at hscr'
    exact Option.noConfusion hscr'
  · rw [if_neg hm] at hscr'
    rw [if_neg hm] at hts'
    obtain ⟨t', hli, hlu⟩ := runOps_lastIngest ops a v hscr'
    rw [hlu] at hts'
    obtain rfl : t' = t := by
      injection hts'
    exact hli

/-- C7, witness: two ingestions for agent `A`, then a snapshot — its record
is the second screenshot paired with the second timestamp. -/
theorem snapshot_reflects_latest_ingestion_witness :
    lastIngest [Op.ingest "A" "v1" 0, Op.ingest "A" "v2" 1] "A"
      = some ("v2", 1) :=
  snapshot_reflects_latest_ingestion
    [Op.ingest "A" "v1" 0, Op.ingest "A" "v2" 1] 2 "A" "v2" 1
    (by norm_num [runOps, applyOp, update_screenshot, get_screenshots,
      staleList, removeAgents, removeAgent, initState, dget, dset, ddel,
      List.filter])
    (by norm_num [runOps, applyOp, update_screenshot, get_screenshots,
      staleList, removeAgents, removeAgent, initState, dget, dset, ddel,
      List.filter])

/-- C9: over any finite prefix of the sweeper loop's execution, an iteration
whose sweep body raises leaves the registry exactly as it was and the loop
still processes every later iteration; and the loop sleeps 30 seconds per
iteration regardless of failures, so the cadence never changes. -/
theorem cleanup_stale_loop_resilient (s : RegState)
    (pre post : List (Time × Bool)) (t : Time) :
    (sweeperRun s (pre ++ (t, true) :: post)).1
      = (sweeperRun (sweeperRun s pre).1 post).1
    ∧ (∀ n : ℕ, (sweeperStep (s, n) (t, true)).1 = s)
    ∧ (∀ evs : List (Time × Bool), (sweeperRun s evs).2 = 30 * evs.length) := by
  refine ⟨?_, fun n => rfl, ?_⟩
  · unfold sweeperRun
    rw [List.foldl_append, List.foldl_cons]
    have hstep : sweeperStep (List.foldl sweeperStep (s, 0) pre) (t, true)
        = ((List.foldl sweeperStep (s, 0) pre).1,
           (List.foldl sweeperStep (s, 0) pre).2 + 30) := rfl
    rw [hstep]
    exact sweeperRun_fst_counter post _ _ 0
  · intro evs
    have h := sweeperRun_snd evs s 0
    unfold sweeperRun
    rw [h]
    ring

/-- C10: every registry operation preserves the invariant that the three
dicts have identical key sets, and consequently the invariant holds in every
reachable registry state. -/
theorem registry_same_key_sets :
    (∀ (s : RegState) (op : Op), sameKeys s → sameKeys (applyOp s op))
    ∧ (∀ s : RegState, Reachable s → sameKeys s) :=
  ⟨fun _ op hs => sameKeys_applyOp hs op, fun _ hs => reachable_sameKeys hs⟩

/-- C10, witness: the invariant after an ingestion into the empty registry,
and in the reachable state built by two ingestions and a cleanup. -/
theorem registry_same_key_sets_witness :
    sameKeys (applyOp initState (.ingest "A" "xyz" 0))
    ∧ sameKeys (runOps initState
        [.ingest "A" "xyz" 0, .cleanup false "", .ingest "B" "b" 1]) :=
  ⟨registry_same_key_sets.1 initState (.ingest "A" "xyz" 0) sameKeys_init,
   registry_same_key_sets.2 _
     ⟨[.ingest "A" "xyz" 0, .cleanup false "", .ingest "B" "b" 1], rfl⟩⟩

end BrowserStream
